import Mathlib

/-!
Shallow embedding of the Game Boy CPU core (`src/gameboy/cpu.rs`) and proofs
about its fetch/decode/execute mechanism.

Modelling conventions:
- `u8` and `u16` values are `Nat`s; operations that wrap in Rust take an
  explicit `% 0x100` / `% 0x10000`.
- Rust's plain `+` on `u16` (which is a panic on overflow) is modelled by
  `u16_add`, returning `none` on overflow; `wrapping_add` is modelled by
  `u16_wrapping_add`; `u8::overflowing_add` by `u8_overflowing_add`.
- The fixed-size backing array `[u8; 0xFFFF]` of `MemoryBus` is a `List Nat`;
  the panicking index `self.memory[address as usize]` is the fallible index
  `memory[address]?`, so a Rust index panic is `none`.
- A Rust `panic!` (unknown opcode) and any panicking read make the whole
  step return `none`.
- Field, function and constant names follow the Rust source.
-/

namespace Gameboy

def ZERO_FLAG_BYTE_POSITION : Nat := 7
def SUBTRACT_FLAG_BYTE_POSITION : Nat := 6
def HALF_CARRY_FLAG_BYTE_POSITION : Nat := 5
def CARRY_FLAG_BYTE_POSITION : Nat := 4

/-- The four condition flags of the `F` register (struct `FlagsRegister`). -/
structure FlagsRegister where
  zero : Bool
  subtract : Bool
  half_carry : Bool
  carry : Bool
deriving DecidableEq

/-- Rust impl `From<FlagsRegister> for u8`: pack the four flags into one byte.
`Bool.toNat` is Rust's `u8::from(bool)`. -/
def u8_from_flags (flags : FlagsRegister) : Nat :=
  flags.zero.toNat <<< ZERO_FLAG_BYTE_POSITION
    ||| flags.subtract.toNat <<< SUBTRACT_FLAG_BYTE_POSITION
    ||| flags.half_carry.toNat <<< HALF_CARRY_FLAG_BYTE_POSITION
    ||| flags.carry.toNat <<< CARRY_FLAG_BYTE_POSITION

/-- Rust impl `From<u8> for FlagsRegister`: extract each flag by shift and mask. -/
def FlagsRegister.from_u8 (byte : Nat) : FlagsRegister :=
  { zero := ((byte >>> ZERO_FLAG_BYTE_POSITION) &&& 0b1) != 0
    subtract := ((byte >>> SUBTRACT_FLAG_BYTE_POSITION) &&& 0b1) != 0
    half_carry := ((byte >>> HALF_CARRY_FLAG_BYTE_POSITION) &&& 0b1) != 0
    carry := ((byte >>> CARRY_FLAG_BYTE_POSITION) &&& 0b1) != 0 }

/-- The eight 8-bit registers (struct `Registers`). -/
structure Registers where
  a : Nat
  b : Nat
  c : Nat
  d : Nat
  e : Nat
  f : FlagsRegister
  h : Nat
  l : Nat
deriving DecidableEq

def Registers.get_bc (r : Registers) : Nat :=
  (r.b <<< 8) ||| r.c

def Registers.set_bc (r : Registers) (value : Nat) : Registers :=
  { r with b := (value &&& 0xFF00) >>> 8, c := value &&& 0xFF }

def Registers.get_de (r : Registers) : Nat :=
  (r.d <<< 8) ||| r.e

def Registers.set_de (r : Registers) (value : Nat) : Registers :=
  { r with d := (value &&& 0xFF00) >>> 8, e := value &&& 0xFF }

inductive ArithmeticTarget where
  | A | B | C | D | E | H | L
deriving DecidableEq

inductive IncDecTarget where
  | BC | DE
deriving DecidableEq

inductive PrefixTarget where
  | B
deriving DecidableEq

inductive JumpTest where
  | NotZero | Zero | NotCarry | Carry | Always
deriving DecidableEq

/-- The decoded instruction forms (enum `Instruction`). -/
inductive Instruction where
  | Add (target : ArithmeticTarget)
  | Inc (target : IncDecTarget)
  | Rlc (target : PrefixTarget)
  | Jp (test : JumpTest)
deriving DecidableEq

/-- Rust `Instruction::from_prefixed_byte`: the CB-prefixed decode table. -/
def Instruction.from_prefixed_byte (byte : Nat) : Option Instruction :=
  match byte with
  | 0x00 => some (Instruction.Rlc PrefixTarget.B)
  | _ => none

/-- Rust `Instruction::from_normal_byte`: the unprefixed decode table. -/
def Instruction.from_normal_byte (byte : Nat) : Option Instruction :=
  match byte with
  | 0x02 => some (Instruction.Inc IncDecTarget.BC)
  | 0x13 => some (Instruction.Inc IncDecTarget.DE)
  | _ => none

/-- Rust `Instruction::from_byte`: dispatch between the two decode tables.
It is a function of the byte and the prefixed flag only. -/
def Instruction.from_byte (byte : Nat) (is_prefixed : Bool) : Option Instruction :=
  if is_prefixed then
    Instruction.from_prefixed_byte byte
  else
    Instruction.from_normal_byte byte

/-- The flat memory (struct `MemoryBus`); the Rust field is `memory: [u8; 0xFFFF]`,
an array of 0xFFFF = 65535 bytes (not 0x10000). -/
structure MemoryBus where
  memory : List Nat
deriving DecidableEq

/-- Rust `MemoryBus::read_byte`: `self.memory[address as usize]`, a plain index
that panics (here: `none`) when the address is not below the array length. -/
def MemoryBus.read_byte (bus : MemoryBus) (address : Nat) : Option Nat :=
  bus.memory[address]?

/-- The CPU state (struct `Cpu`). -/
structure Cpu where
  registers : Registers
  pc : Nat
  bus : MemoryBus
deriving DecidableEq

/-- Rust `+` on `u16`: overflow is a panic, modelled as `none`. -/
def u16_add (x y : Nat) : Option Nat :=
  if x + y < 0x10000 then some (x + y) else none

/-- Rust `u16::wrapping_add`. -/
def u16_wrapping_add (x y : Nat) : Nat :=
  (x + y) % 0x10000

/-- Rust `u8::overflowing_add`: the wrapped sum and the overflow bit. -/
def u8_overflowing_add (x y : Nat) : Nat × Bool :=
  ((x + y) % 0x100, decide (0x100 ≤ x + y))

/-- Rust `Cpu::add`: sets the four flags from `a + value` and returns the
wrapped sum; the half-carry test reads the still-unmodified accumulator. -/
def Cpu.add (cpu : Cpu) (value : Nat) : Cpu × Nat :=
  let res := u8_overflowing_add cpu.registers.a value
  let new_value := res.1
  let did_overflow := res.2
  let flags : FlagsRegister :=
    { zero := new_value == 0
      subtract := false
      carry := did_overflow
      half_carry := decide (0xF < (cpu.registers.a &&& 0xF) + (value &&& 0xF)) }
  ({ cpu with registers := { cpu.registers with f := flags } }, new_value)

/-- Rust `Cpu::jump`: when taken, read the little-endian target from the two
bytes after `pc` (plain `+`, panicking reads); otherwise `pc.wrapping_add(3)`. -/
def Cpu.jump (cpu : Cpu) (should_jump : Bool) : Option Nat :=
  if should_jump then do
    let addr1 ← u16_add cpu.pc 1
    let least_significant_byte ← cpu.bus.read_byte addr1
    let addr2 ← u16_add cpu.pc 2
    let most_significant_byte ← cpu.bus.read_byte addr2
    pure ((most_significant_byte <<< 8) ||| least_significant_byte)
  else
    pure (u16_wrapping_add cpu.pc 3)

/-- Rust `Cpu::execute`: dispatch on the instruction; arms not written in the
source fall through to `_ => self.pc` with no state change. Returns the
updated CPU and the next pc. -/
def Cpu.execute (cpu : Cpu) (instruction : Instruction) : Option (Cpu × Nat) :=
  match instruction with
  | Instruction.Add target =>
    match target with
    | ArithmeticTarget.C =>
      let value := cpu.registers.c
      let res := cpu.add value
      let cpu2 := { res.1 with registers := { res.1.registers with a := res.2 } }
      some (cpu2, u16_wrapping_add cpu2.pc 1)
    | _ => some (cpu, cpu.pc)
  | Instruction.Jp jump_test =>
    let should_jump :=
      match jump_test with
      | JumpTest.NotZero => !cpu.registers.f.zero
      | JumpTest.NotCarry => !cpu.registers.f.carry
      | JumpTest.Zero => cpu.registers.f.zero
      | JumpTest.Carry => cpu.registers.f.carry
      | JumpTest.Always => true
    (cpu.jump should_jump).map (fun next_pc => (cpu, next_pc))
  | _ => some (cpu, cpu.pc)

/-- Rust `Cpu::step`: fetch (with 0xCB prefix handling), decode, execute,
commit the next pc. Unknown opcode is the Rust panic, modelled as `none`. -/
def Cpu.step (cpu : Cpu) : Option Cpu := do
  let byte0 ← cpu.bus.read_byte cpu.pc
  let is_prefixed := byte0 == 0xCB
  let instruction_byte ←
    if is_prefixed then do
      let addr1 ← u16_add cpu.pc 1
      cpu.bus.read_byte addr1
    else
      pure byte0
  match Instruction.from_byte instruction_byte is_prefixed with
  | none => none
  | some instruction => do
    let res ← cpu.execute instruction
    pure { res.1 with pc := res.2 }

/-! Concrete fixtures used to evaluate the theorems on closed inputs. -/

/-- All four flags clear. -/
def flags0 : FlagsRegister := ⟨false, false, false, false⟩

/-- A register file of all zeroes. -/
def regs0 : Registers := ⟨0, 0, 0, 0, 0, flags0, 0, 0⟩

/-- CPU with `c = 5` (so BC = 5), empty memory, pc = 0x0200. -/
def cpu0 : Cpu := ⟨⟨0, 0, 5, 0, 0, flags0, 0, 0⟩, 0x0200, ⟨[]⟩⟩

/-- CPU with `a = 0xFF`, `c = 0x01`, pc = 0x0100. -/
def add_cpu : Cpu := ⟨⟨0xFF, 0, 0x01, 0, 0, flags0, 0, 0⟩, 0x0100, ⟨[]⟩⟩

/-- CPU at pc = 0x0100 whose memory holds 0x34 at 0x0101 and 0x12 at 0x0102. -/
def jump_cpu : Cpu :=
  ⟨regs0, 0x0100, ⟨List.replicate 0x101 0 ++ [0x34, 0x12]⟩⟩

/-- CPU at pc = 0xFFFE with all flags clear. -/
def wrap_cpu : Cpu := ⟨regs0, 0xFFFE, ⟨[]⟩⟩

/-- A memory bus filled exactly as the Rust declaration sizes it:
0xFFFF (= 65535) bytes. -/
def full_bus : MemoryBus := ⟨List.replicate 0xFFFF 0⟩

/-! Theorems. -/

/-- Helper: re-joining the high and low bytes split off a 16-bit value gives
the value back. -/
theorem split_join_bits (v : Nat) (hv : v < 0x10000) :
    ((((v &&& 0xFF00) >>> 8) <<< 8) ||| (v &&& 0xFF)) = v := by
  apply Nat.eq_of_testBit_eq
  intro i
  have h00 : (0xFF00 : Nat) = (2 ^ 8 - 1) <<< 8 := by decide
  have hFF : (0xFF : Nat) = 2 ^ 8 - 1 := by decide
  rw [h00, hFF]
  simp only [Nat.testBit_lor, Nat.testBit_land, Nat.testBit_shiftLeft, Nat.testBit_shiftRight,
    Nat.testBit_two_pow_sub_one]
  by_cases h8 : 8 ≤ i
  · have he : 8 + (i - 8) = i := by omega
    rw [he]
    by_cases h16 : i < 16
    · have h1 : i - 8 < 8 := by omega
      simp [h8, h1, h16]
    · have hpow : (0x10000 : Nat) ≤ 2 ^ i := by
        calc (0x10000 : Nat) = 2 ^ 16 := by norm_num
        _ ≤ 2 ^ i := Nat.pow_le_pow_right (by norm_num) (by omega)
      have hz : v.testBit i = false :=
        Nat.testBit_eq_false_of_lt (lt_of_lt_of_le hv hpow)
      have h1 : ¬(i - 8 < 8) := by omega
      simp [hz, h8, h1]
  · have hlt : i < 8 := by omega
    simp [h8, hlt]

/-- C1: the claim that `read_byte` succeeds on every 16-bit address is wrong
on the code: the backing array has length 0xFFFF = 65535, so address 0xFFFF
is out of bounds (a Rust index panic, `none` here), while every address
strictly below 0xFFFF does read a byte. -/
theorem read_byte_oob_at_FFFF (bus : MemoryBus) (hlen : bus.memory.length = 0xFFFF) :
    bus.read_byte 0xFFFF = none ∧
      ∀ address : Nat, address < 0xFFFF → (bus.read_byte address).isSome = true := by
  constructor
  · simp [MemoryBus.read_byte, List.getElem?_eq_none, hlen]
  · intro address ha
    have hlt : address < bus.memory.length := by rw [hlen]; exact ha
    show (bus.memory[address]?).isSome = true
    rw [List.getElem?_eq_getElem hlt]
    rfl

/-- C1 witness: on a bus of exactly the declared 0xFFFF bytes, reading
address 0xFFFF fails. -/
theorem read_byte_oob_at_FFFF_witness : full_bus.read_byte 0xFFFF = none :=
  (read_byte_oob_at_FFFF full_bus (List.length_replicate 0xFFFF 0)).1

/-- C2 counterexample: executing `Inc(BC)` on a CPU with BC = 5 returns the
CPU completely unchanged (BC still 5), not a CPU with BC = 6: the `Inc` arm
is not present in `execute` and falls through to the default no-op. -/
theorem inc_bc_does_not_increment :
    cpu0.execute (Instruction.Inc IncDecTarget.BC) = some (cpu0, cpu0.pc) ∧
    cpu0.registers.get_bc = 5 ∧
    cpu0.execute (Instruction.Inc IncDecTarget.BC) ≠
      some ({ cpu0 with registers := cpu0.registers.set_bc 6 }, cpu0.pc) := by
  decide

/-- C2 amended: executing `Inc(BC)` or `Inc(DE)` is a complete no-op — the
register pair is not incremented, no flag is set, and the pc is returned
unchanged. -/
theorem inc_is_noop :
    ∀ (cpu : Cpu) (target : IncDecTarget),
      cpu.execute (Instruction.Inc target) = some (cpu, cpu.pc) :=
  fun _ _ => rfl

/-- C3: `Add` with the `C` selector sets `a` to the wrapping sum `a + c`,
zero to (result == 0), subtract to false, carry to (unwrapped sum > 0xFF),
half-carry to ((a &&& 0xF) + (c &&& 0xF) > 0xF) on the original accumulator,
and advances the pc by 1 with wraparound; in particular a = 0xFF, c = 0x01
gives result 0x00 with zero, half-carry and carry all set. -/
theorem add_c_semantics :
    (∀ cpu : Cpu,
      cpu.execute (Instruction.Add ArithmeticTarget.C) =
        some ({ cpu with registers := { cpu.registers with
                  a := (cpu.registers.a + cpu.registers.c) % 0x100,
                  f := { zero := ((cpu.registers.a + cpu.registers.c) % 0x100) == 0,
                         subtract := false,
                         half_carry :=
                           decide (0xF < (cpu.registers.a &&& 0xF) + (cpu.registers.c &&& 0xF)),
                         carry := decide (0x100 ≤ cpu.registers.a + cpu.registers.c) } } },
              (cpu.pc + 1) % 0x10000)) ∧
    add_cpu.execute (Instruction.Add ArithmeticTarget.C) =
      some ({ add_cpu with registers := { add_cpu.registers with
                a := 0x00,
                f := { zero := true, subtract := false, half_carry := true, carry := true } } },
            0x0101) :=
  ⟨fun _ => rfl, by decide⟩

/-- C4: executing `Jp(condition)` evaluates the condition against the flags
(NotZero, Zero, NotCarry, Carry test the named flag, Always is true); when
true the next pc is the little-endian 16-bit value read from pc+1 (low byte)
and pc+2 (high byte), when false it is pc + 3 with wraparound. -/
theorem jp_semantics (cpu : Cpu) (cond : JumpTest) (lo hi : Nat)
    (hpc : cpu.pc + 2 < 0x10000)
    (hlo : cpu.bus.read_byte (cpu.pc + 1) = some lo)
    (hhi : cpu.bus.read_byte (cpu.pc + 2) = some hi) :
    cpu.execute (Instruction.Jp cond) =
      some (cpu,
        if (match cond with
            | JumpTest.NotZero => !cpu.registers.f.zero
            | JumpTest.NotCarry => !cpu.registers.f.carry
            | JumpTest.Zero => cpu.registers.f.zero
            | JumpTest.Carry => cpu.registers.f.carry
            | JumpTest.Always => true) = true
        then (hi <<< 8) ||| lo
        else (cpu.pc + 3) % 0x10000) := by
  have h1 : u16_add cpu.pc 1 = some (cpu.pc + 1) := by
    simp only [u16_add, if_pos (show cpu.pc + 1 < 0x10000 by omega)]
  have h2 : u16_add cpu.pc 2 = some (cpu.pc + 2) := by
    simp only [u16_add, if_pos hpc]
  cases hsj : (match cond with
      | JumpTest.NotZero => !cpu.registers.f.zero
      | JumpTest.NotCarry => !cpu.registers.f.carry
      | JumpTest.Zero => cpu.registers.f.zero
      | JumpTest.Carry => cpu.registers.f.carry
      | JumpTest.Always => true) with
  | false => simp [Cpu.execute, hsj, Cpu.jump, u16_wrapping_add]
  | true => simp [Cpu.execute, hsj, Cpu.jump, h1, h2, hlo, hhi]

set_option maxRecDepth 4000 in
/-- C4 witness: at pc = 0x0100 with operand bytes 0x34 and 0x12, a taken
`Jp(Always)` jumps to 0x1234 and an untaken `Jp(Zero)` (zero flag clear)
advances to 0x0103. -/
theorem jp_semantics_witness :
    jump_cpu.execute (Instruction.Jp JumpTest.Always) = some (jump_cpu, 0x1234) ∧
    jump_cpu.execute (Instruction.Jp JumpTest.Zero) = some (jump_cpu, 0x0103) := by
  have hlo : jump_cpu.bus.read_byte (jump_cpu.pc + 1) = some 0x34 := by
    show (MemoryBus.mk (List.replicate 0x101 0 ++ [0x34, 0x12])).read_byte (0x100 + 1) = some 0x34
    simp only [MemoryBus.read_byte, List.getElem?_append, List.length_replicate,
      List.getElem?_replicate]
    norm_num
  have hhi : jump_cpu.bus.read_byte (jump_cpu.pc + 2) = some 0x12 := by
    show (MemoryBus.mk (List.replicate 0x101 0 ++ [0x34, 0x12])).read_byte (0x100 + 2) = some 0x12
    simp only [MemoryBus.read_byte, List.getElem?_append, List.length_replicate,
      List.getElem?_replicate]
    norm_num
  exact ⟨(jp_semantics jump_cpu JumpTest.Always 0x34 0x12 (by decide) hlo hhi).trans (by decide),
         (jp_semantics jump_cpu JumpTest.Zero 0x34 0x12 (by decide) hlo hhi).trans (by decide)⟩

set_option maxRecDepth 4000 in
/-- C5: encoding the flags decoded from any byte clears the low nibble and
keeps the high one: the round-trip equals `b &&& 0xF0`. -/
theorem flags_encode_decode_roundtrip (b : Nat) (hb : b < 0x100) :
    u8_from_flags (FlagsRegister.from_u8 b) = b &&& 0xF0 := by
  revert hb
  revert b
  decide

/-- C5 witness: the round-trip at byte 0xB5 yields 0xB0. -/
theorem flags_encode_decode_roundtrip_witness :
    u8_from_flags (FlagsRegister.from_u8 0xB5) = 0xB5 &&& 0xF0 :=
  flags_encode_decode_roundtrip 0xB5 (by decide)

/-- C6: for any register file and any 16-bit value, `get_bc` after `set_bc`
returns the value exactly, and likewise for DE. -/
theorem pair_roundtrip (r : Registers) (v : Nat) (hv : v < 0x10000) :
    (r.set_bc v).get_bc = v ∧ (r.set_de v).get_de = v := by
  constructor
  · show ((((v &&& 0xFF00) >>> 8) <<< 8) ||| (v &&& 0xFF)) = v
    exact split_join_bits v hv
  · show ((((v &&& 0xFF00) >>> 8) <<< 8) ||| (v &&& 0xFF)) = v
    exact split_join_bits v hv

/-- C6 witness: the BC and DE round-trip at value 0xABCD. -/
theorem pair_roundtrip_witness :
    (regs0.set_bc 0xABCD).get_bc = 0xABCD ∧ (regs0.set_de 0xABCD).get_de = 0xABCD :=
  pair_roundtrip regs0 0xABCD (by decide)

/-- C7: pc arithmetic wraps modulo 2^16: from pc = 0xFFFE, `Add(C)` (a 1-byte
advance) yields next pc 0xFFFF, and an untaken `Jp` (3-byte advance) yields
0x0001. -/
theorem pc_wraparound (cpu : Cpu) (hpc : cpu.pc = 0xFFFE)
    (hz : cpu.registers.f.zero = false) :
    (cpu.execute (Instruction.Add ArithmeticTarget.C)).map Prod.snd = some 0xFFFF ∧
    cpu.execute (Instruction.Jp JumpTest.Zero) = some (cpu, 0x0001) := by
  constructor
  · simp [Cpu.execute, Cpu.add, u8_overflowing_add, u16_wrapping_add, hpc]
  · simp [Cpu.execute, hz, Cpu.jump, u16_wrapping_add, hpc]

/-- C7 witness: the two wraparound cases at the concrete CPU with
pc = 0xFFFE. -/
theorem pc_wraparound_witness :
    (wrap_cpu.execute (Instruction.Add ArithmeticTarget.C)).map Prod.snd = some 0xFFFF ∧
    wrap_cpu.execute (Instruction.Jp JumpTest.Zero) = some (wrap_cpu, 0x0001) :=
  pc_wraparound wrap_cpu rfl rfl

/-- C8: the decode table maps unprefixed 0x02 to `Inc(BC)`, unprefixed 0x13
to `Inc(DE)`, prefixed 0x00 to `Rlc(B)`, and unprefixed 0xFF to no
instruction; `from_byte` is a pure function of the byte and the prefixed
flag alone, so decoding cannot depend on CPU or memory state. -/
theorem decode_table_cases :
    Instruction.from_byte 0x02 false = some (Instruction.Inc IncDecTarget.BC) ∧
    Instruction.from_byte 0x13 false = some (Instruction.Inc IncDecTarget.DE) ∧
    Instruction.from_byte 0x00 true = some (Instruction.Rlc PrefixTarget.B) ∧
    Instruction.from_byte 0xFF false = none :=
  ⟨rfl, rfl, rfl, rfl⟩

/-- C9: `Add` with any register selector other than `C` is a no-op: the CPU
state is returned untouched and the next pc equals the current pc. -/
theorem add_unsupported_noop (cpu : Cpu) (target : ArithmeticTarget)
    (h : target ≠ ArithmeticTarget.C) :
    cpu.execute (Instruction.Add target) = some (cpu, cpu.pc) := by
  cases target
  case C => exact absurd rfl h
  all_goals rfl

/-- C9 witness: `Add(A)` leaves the concrete CPU and its pc unchanged. -/
theorem add_unsupported_noop_witness :
    cpu0.execute (Instruction.Add ArithmeticTarget.A) = some (cpu0, cpu0.pc) :=
  add_unsupported_noop cpu0 ArithmeticTarget.A (by decide)

/-- C10: decoding the byte encoded from any combination of the four flags
recovers the flags exactly. -/
theorem flags_decode_encode_roundtrip :
    ∀ flags : FlagsRegister, FlagsRegister.from_u8 (u8_from_flags flags) = flags := by
  intro flags
  cases flags with
  | mk z s hc c => cases z <;> cases s <;> cases hc <;> cases c <;> rfl

end Gameboy
